import Mathlib

/-!
Verification development for the Txt-to-SQL refinement pipeline
(source: main.py).  The Reasoner-backed agents are modelled as oracles
supplying raw reply strings; the structured-response extraction, the
stage fallbacks and the refinement loop are translated from the source.
Python values decoded from JSON are modelled by the inductive `Json`;
machine-level details that the claims do not touch (floating point
numbers, unicode escapes in JSON strings, repr escaping) are simplified
and noted at the definition concerned.
-/

namespace Txt2Sql

/-- Python values decoded by json.loads (numbers restricted to integers;
the source never manipulates fractional values). -/
inductive Json where
  | null : Json
  | bool (b : Bool) : Json
  | num (n : Int) : Json
  | str (s : String) : Json
  | arr (xs : List Json) : Json
  | obj (kvs : List (String × Json)) : Json

/-- Python exceptions that the key accesses in the loop can raise. -/
inductive PyErr where
  | keyError (k : String) : PyErr
  | typeError : PyErr
deriving DecidableEq

/-- Dictionary lookup; with duplicate keys json.loads keeps the last
occurrence, so the scan runs from the right. -/
def objGet? (j : Json) (k : String) : Option Json :=
  match j with
  | Json.obj kvs => (kvs.reverse.find? (fun kv => kv.1 = k)).map (fun kv => kv.2)
  | _ => none

/-- Python subscript `j[k]` with a string key: TypeError on a non-dict,
KeyError on a missing key. -/
def getItem (j : Json) (k : String) : Except PyErr Json :=
  match j with
  | Json.obj _ =>
      match objGet? j k with
      | some v => Except.ok v
      | none => Except.error (PyErr.keyError k)
  | _ => Except.error PyErr.typeError

/-- Python truthiness of a decoded value. -/
def pyTruthy (j : Json) : Bool :=
  match j with
  | Json.null => false
  | Json.bool b => b
  | Json.num n => n ≠ 0
  | Json.str s => s ≠ ""
  | Json.arr xs => !xs.isEmpty
  | Json.obj kvs => !kvs.isEmpty

mutual

/-- Python repr of a decoded value (string escaping simplified: the
claims only ever format plain strings). -/
def pyRepr : Json → String
  | Json.null => "None"
  | Json.bool b => if b then "True" else "False"
  | Json.num n => toString n
  | Json.str s => "\x27" ++ s ++ "\x27"
  | Json.arr xs => "[" ++ pyReprArr xs ++ "]"
  | Json.obj kvs => "\x7b" ++ pyReprObj kvs ++ "\x7d"

def pyReprArr : List Json → String
  | [] => ""
  | [x] => pyRepr x
  | x :: y :: rest => pyRepr x ++ ", " ++ pyReprArr (y :: rest)

def pyReprObj : List (String × Json) → String
  | [] => ""
  | [kv] => "\x27" ++ kv.1 ++ "\x27: " ++ pyRepr kv.2
  | kv :: kv2 :: rest =>
      "\x27" ++ kv.1 ++ "\x27: " ++ pyRepr kv.2 ++ ", " ++ pyReprObj (kv2 :: rest)

end

/-- Python str() of a decoded value, as used by f-string interpolation. -/
def pyStr : Json → String
  | Json.null => "None"
  | Json.bool b => if b then "True" else "False"
  | Json.num n => toString n
  | Json.str s => s
  | Json.arr xs => pyRepr (Json.arr xs)
  | Json.obj kvs => pyRepr (Json.obj kvs)

/-! ## A model of json.loads (strict decoding) -/

/-- Skip JSON whitespace. -/
def skipWs : List Char → List Char
  | [] => []
  | c :: cs =>
      if c = ' ' ∨ c = '\t' ∨ c = '\n' ∨ c = '\r' then skipWs cs else c :: cs

/-- Single-character string escapes (unicode escapes unsupported, as a
modelling simplification; no claim exercises them). -/
def escChar (c : Char) : Option Char :=
  if c = '"' then some '"'
  else if c = '\\' then some '\\'
  else if c = '/' then some '/'
  else if c = 'n' then some '\n'
  else if c = 't' then some '\t'
  else if c = 'r' then some '\r'
  else if c = 'b' then some (Char.ofNat 8)
  else if c = 'f' then some (Char.ofNat 12)
  else none

/-- Parse the body of a JSON string after the opening quote; strict
decoding rejects raw control characters. -/
def parseStringBody : Nat → List Char → Option (List Char × List Char)
  | 0, _ => none
  | _, [] => none
  | fuel + 1, c :: rest =>
      if c = '"' then some ([], rest)
      else if c = '\\' then
        match rest with
        | [] => none
        | e :: rest2 =>
            match escChar e with
            | some ec =>
                match parseStringBody fuel rest2 with
                | some (body, rem) => some (ec :: body, rem)
                | none => none
            | none => none
      else if c.toNat < 32 then none
      else
        match parseStringBody fuel rest with
        | some (body, rem) => some (c :: body, rem)
        | none => none

/-- Longest digit prefix. -/
def spanDigits : List Char → List Char × List Char
  | [] => ([], [])
  | c :: rest =>
      if c.isDigit then
        let (ds, rem) := spanDigits rest
        (c :: ds, rem)
      else ([], c :: rest)

/-- Digits to a natural number. -/
def digitsToNat (ds : List Char) : Nat :=
  ds.foldl (fun acc c => acc * 10 + (c.toNat - 48)) 0

/-- JSON integer literal: optional minus, then either a lone 0 or a
nonzero-leading digit run (json.loads rejects leading zeros). -/
def parseIntNum (cs : List Char) : Option (Int × List Char) :=
  let signed : Bool × List Char :=
    match cs with
    | '-' :: r => (true, r)
    | _ => (false, cs)
  match signed.2 with
  | [] => none
  | c :: rest =>
      if c = '0' then
        match rest with
        | d :: _ => if d.isDigit then none else some (0, rest)
        | [] => some (0, [])
      else if c.isDigit then
        let (ds, rem) := spanDigits (c :: rest)
        let n : Int := Int.ofNat (digitsToNat ds)
        some (if signed.1 then -n else n, rem)
      else none

mutual

/-- Parse one JSON value (fuelled recursive descent). -/
def parseVal : Nat → List Char → Option (Json × List Char)
  | 0, _ => none
  | fuel + 1, cs =>
      match skipWs cs with
      | [] => none
      | c :: rest =>
          if c = 'n' then
            match rest with
            | 'u' :: 'l' :: 'l' :: rem => some (Json.null, rem)
            | _ => none
          else if c = 't' then
            match rest with
            | 'r' :: 'u' :: 'e' :: rem => some (Json.bool true, rem)
            | _ => none
          else if c = 'f' then
            match rest with
            | 'a' :: 'l' :: 's' :: 'e' :: rem => some (Json.bool false, rem)
            | _ => none
          else if c = '"' then
            match parseStringBody (fuel + 1) rest with
            | some (body, rem) => some (Json.str (String.mk body), rem)
            | none => none
          else if c = '\x7b' then
            match skipWs rest with
            | '\x7d' :: rem => some (Json.obj [], rem)
            | cs2 => match parseObjTail fuel cs2 with
                     | some (kvs, rem) => some (Json.obj kvs, rem)
                     | none => none
          else if c = '[' then
            match skipWs rest with
            | ']' :: rem => some (Json.arr [], rem)
            | cs2 => match parseArrTail fuel cs2 with
                     | some (xs, rem) => some (Json.arr xs, rem)
                     | none => none
          else
            match parseIntNum (c :: rest) with
            | some (n, rem) => some (Json.num n, rem)
            | none => none

/-- Parse array elements up to the closing bracket. -/
def parseArrTail : Nat → List Char → Option (List Json × List Char)
  | 0, _ => none
  | fuel + 1, cs =>
      match parseVal fuel cs with
      | none => none
      | some (j, rem) =>
          match skipWs rem with
          | ',' :: rem2 =>
              match parseArrTail fuel rem2 with
              | some (xs, rem3) => some (j :: xs, rem3)
              | none => none
          | ']' :: rem2 => some ([j], rem2)
          | _ => none

/-- Parse object members up to the closing brace. -/
def parseObjTail : Nat → List Char → Option (List (String × Json) × List Char)
  | 0, _ => none
  | fuel + 1, cs =>
      match skipWs cs with
      | '"' :: rest =>
          match parseStringBody (fuel + 1) rest with
          | none => none
          | some (key, rem) =>
              match skipWs rem with
              | ':' :: rem2 =>
                  match parseVal fuel rem2 with
                  | none => none
                  | some (v, rem3) =>
                      match skipWs rem3 with
                      | ',' :: rem4 =>
                          match parseObjTail fuel rem4 with
                          | some (kvs, rem5) => some ((String.mk key, v) :: kvs, rem5)
                          | none => none
                      | '\x7d' :: rem4 => some ([(String.mk key, v)], rem4)
                      | _ => none
              | _ => none
      | _ => none

end

/-- Model of json.loads: strict decode of the whole text. -/
def jsonParse (s : String) : Option Json :=
  match parseVal (s.length + 1) s.toList with
  | some (j, rem) => if skipWs rem = [] then some j else none
  | none => none

/-! ## The brace-span extraction (re.search with a greedy dotall pattern) -/

/-- Index of the last occurrence of a character. -/
def lastIdx (c : Char) : List Char → Option Nat
  | [] => none
  | a :: rest =>
      match lastIdx c rest with
      | some j => some (j + 1)
      | none => if a = c then some 0 else none

/-- Index of the first occurrence of a character. -/
def firstIdx (c : Char) : List Char → Option Nat
  | [] => none
  | a :: rest =>
      if a = c then some 0
      else
        match firstIdx c rest with
        | some i => some (i + 1)
        | none => none

/-- The regex search from the source: leftmost match attempt of an
opening brace, then the greedy dot-star runs to the last closing brace;
a position with no closing brace after it fails and the scan advances. -/
def jsonSpanList : List Char → Option (List Char)
  | [] => none
  | c :: rest =>
      if c = '\x7b' then
        match lastIdx '\x7d' rest with
        | some j => some (c :: rest.take (j + 1))
        | none => jsonSpanList rest
      else jsonSpanList rest

/-- Modelled from the spec: the span from the first opening brace to the
last closing brace of the whole text, when the first precedes the last. -/
def specSpanList (cs : List Char) : Option (List Char) :=
  match firstIdx '\x7b' cs, lastIdx '\x7d' cs with
  | some i, some j => if i < j then some ((cs.take (j + 1)).drop i) else none
  | _, _ => none

/-- String form of the regex search. -/
def jsonSpan (s : String) : Option String :=
  (jsonSpanList s.toList).map (fun cs => String.mk cs)

/-- Modelled from the spec: string form of the declarative span. -/
def specSpan (s : String) : Option String :=
  (specSpanList s.toList).map (fun cs => String.mk cs)

/-- Lines 127-129 / 193-195: replace the content by the matched span
when the search succeeds, keep the whole reply otherwise. -/
def extractJson (content : String) : String :=
  match jsonSpan content with
  | some m => m
  | none => content

/-- Modelled from the spec: decode the span when one is found, otherwise
decode the whole text (the amended extraction algorithm). -/
def specParse (content : String) : Option Json :=
  match specSpan content with
  | some t => jsonParse t
  | none => jsonParse content

/-! ## The two stage adapters behind the extraction -/

/-- The validate_sql fallback record (lines 134-139). -/
def validationFallback (generated_sql : Json) : Json :=
  Json.obj
    [("is_valid", Json.bool false),
     ("issues", Json.arr [Json.str "Failed to parse validation response"]),
     ("suggested_fix", generated_sql),
     ("explanation",
      Json.str "The validator failed to produce a proper response. Please review the SQL manually.")]

/-- SQLValidatorAgent.validate_sql with the Reasoner reply supplied by
the oracle: extract the brace span, strictly decode, fall back on a
decode failure. -/
def validate_sql (reply : String) (generated_sql : Json) : Json :=
  match jsonParse (extractJson reply) with
  | some j => j
  | none => validationFallback generated_sql

/-- The preview_results fallback record (lines 200-207). -/
def previewFallback (sql_query : Json) : Json :=
  Json.obj
    [("columns", Json.arr [Json.str "Error"]),
     ("data", Json.arr [Json.arr [Json.str "Failed to parse results preview"]]),
     ("row_count", Json.num 1),
     ("matches_user_intent", Json.bool false),
     ("explanation",
      Json.str "The results previewer failed to produce a proper response. Please review the SQL manually."),
     ("suggested_improved_query", sql_query)]

/-- ResultsPreviewerAgent.preview_results with the Reasoner reply
supplied by the oracle. -/
def preview_results (reply : String) (sql_query : Json) : Json :=
  match jsonParse (extractJson reply) with
  | some j => j
  | none => previewFallback sql_query

/-! ## The refinement loop -/

/-- Line 242: the feedback text built from the explanation field. -/
def feedbackText (explanation : Json) : String :=
  "Previous query didn\x27t match user intent. Issues: " ++ pyStr explanation

/-- Lines 243-261: the regeneration prompt of the loop body, with
f-string interpolation rendered by pyStr. -/
def genLoopPrompt (schema_analysis user_query : String) (current_sql : Json)
    (feedback : String) : String :=
  "\n            Based on the following database schema analysis:\n            \n            "
    ++ schema_analysis
    ++ "\n            \n            Convert this natural language query into a proper SQL command:\n            \n            \""
    ++ user_query
    ++ "\"\n            \n            Previous attempt:\n            ```sql\n            "
    ++ pyStr current_sql
    ++ "\n            ```\n            \n            Feedback on previous attempt:\n            "
    ++ feedback
    ++ "\n            \n            Provide only the improved SQL command without any explanation.\n            "

/-- The Reasoner oracles: the k-th call of each agent role returns the
k-th reply of its stream. -/
structure Env where
  previewReply : Nat → String
  genReply : Nat → String
  valReply : Nat → String

/-- Observable agent calls, with the argument each stage receives. -/
inductive Event where
  | previewCall (sql : Json) : Event
  | genCall (prompt : String) : Event
  | valCall (sql : Json) : Event

/-- One entry of iteration_history (lines 221-225). -/
structure IterRec where
  iteration : Nat
  sql : Json
  results : Json

/-- The returned outcome record (lines 228-234 / 282-288). -/
structure Outcome where
  sql : Json
  results : Json
  iterations : Nat
  final : Bool
  history : List IterRec

def isPreviewCall : Event → Bool
  | Event.previewCall _ => true
  | _ => false

def isGenCall : Event → Bool
  | Event.genCall _ => true
  | _ => false

def isValCall : Event → Bool
  | Event.valCall _ => true
  | _ => false

def countPreview (tr : List Event) : Nat := tr.countP isPreviewCall

def countGen (tr : List Event) : Nat := tr.countP isGenCall

def countVal (tr : List Event) : Nat := tr.countP isValCall

/-- Line 211. -/
def max_iterations : Nat := 3

/-- Lines 236-262: the choice of the next candidate SQL inside a
non-converged round — adopt a truthy suggested_improved_query, otherwise
regenerate with feedback built from the explanation field (the access of
which can itself raise). -/
def chooseCandidate (env : Env) (schema_analysis user_query : String)
    (current_sql p : Json) (tr1 : List Event) :
    List Event × Except PyErr Json :=
  let genBranch : List Event × Except PyErr Json :=
    match getItem p "explanation" with
    | Except.error e => (tr1, Except.error e)
    | Except.ok ex =>
        (tr1 ++ [Event.genCall
            (genLoopPrompt schema_analysis user_query current_sql
              (feedbackText ex))],
         Except.ok (Json.str (env.genReply (countGen tr1))))
  match objGet? p "suggested_improved_query" with
  | some v => if pyTruthy v then (tr1, Except.ok v) else genBranch
  | none => genBranch

/-- The loop of refine_sql_until_correct (lines 215-288), with the
remaining round count as the recursion measure, the source's loop index
i carried alongside, and every agent call recorded in the trace.  The
zero case is the post-loop block (lines 271-288). -/
def refineAux (env : Env) (schema_analysis user_query : String) :
    Nat → Nat → Json → List IterRec → List Event →
    List Event × Except PyErr Outcome
  | 0, _, current_sql, hist, tr =>
      let fp := preview_results (env.previewReply (countPreview tr)) current_sql
      let tr1 := tr ++ [Event.previewCall current_sql]
      let hist1 := hist ++ [⟨max_iterations, current_sql, fp⟩]
      (tr1, Except.ok ⟨current_sql, fp, max_iterations, false, hist1⟩)
  | n + 1, i, current_sql, hist, tr =>
      let p := preview_results (env.previewReply (countPreview tr)) current_sql
      let tr1 := tr ++ [Event.previewCall current_sql]
      let hist1 := hist ++ [⟨i + 1, current_sql, p⟩]
      match getItem p "matches_user_intent" with
      | Except.error e => (tr1, Except.error e)
      | Except.ok m =>
          if pyTruthy m then
            (tr1, Except.ok ⟨current_sql, p, i + 1, true, hist1⟩)
          else
            match chooseCandidate env schema_analysis user_query current_sql p tr1 with
            | (tr2, Except.error e) => (tr2, Except.error e)
            | (tr2, Except.ok cand) =>
                let v := validate_sql (env.valReply (countVal tr2)) cand
                let tr3 := tr2 ++ [Event.valCall cand]
                match getItem v "is_valid" with
                | Except.error e => (tr3, Except.error e)
                | Except.ok iv =>
                    if pyTruthy iv then
                      refineAux env schema_analysis user_query n (i + 1) cand hist1 tr3
                    else
                      match getItem v "suggested_fix" with
                      | Except.error e => (tr3, Except.error e)
                      | Except.ok fix =>
                          refineAux env schema_analysis user_query n (i + 1) fix hist1 tr3

/-- refine_sql_until_correct (lines 210-288): returns the trace of agent
calls together with the outcome, or the Python exception that escaped. -/
def refine_sql_until_correct (env : Env)
    (schema_analysis user_query initial_sql : String) :
    List Event × Except PyErr Outcome :=
  refineAux env schema_analysis user_query max_iterations 0
    (Json.str initial_sql) [] []

/-! ## Concrete oracle environments used to evaluate the theorems -/

/-- Default record for positional history access. -/
def dummyRec : IterRec := ⟨0, Json.null, Json.null⟩

/-- Every reply is unparseable: each stage falls back, the loop never
converges and exhausts its budget. -/
def exhaustEnv : Env := ⟨fun _ => "x", fun _ => "x", fun _ => "x"⟩

/-- The first preview already reports a match. -/
def convEnv : Env :=
  ⟨fun _ => "\x7b\"matches_user_intent\": true\x7d", fun _ => "", fun _ => ""⟩

/-- The preview reply decodes to an object lacking the expected key. -/
def keyErrEnv : Env :=
  ⟨fun _ => "\x7b\"columns\": []\x7d", fun _ => "", fun _ => ""⟩

/-- The preview reply decodes to a non-dictionary JSON value. -/
def typeErrEnv : Env := ⟨fun _ => "[1]", fun _ => "", fun _ => ""⟩

/-- The preview reply is well-formed and non-matching; the validator
reply decodes to an object lacking the is_valid key. -/
def valKeyErrEnv : Env :=
  ⟨fun _ =>
      "\x7b\"matches_user_intent\": false, \"suggested_improved_query\": \"S2\", \"explanation\": \"bad\"\x7d",
   fun _ => "",
   fun _ => "\x7b\"foo\": 1\x7d"⟩

/-- Non-matching preview offering a suggested query; the validator
rejects it and offers a fix. -/
def suggestEnv : Env :=
  ⟨fun _ =>
      "\x7b\"matches_user_intent\": false, \"suggested_improved_query\": \"S2\", \"explanation\": \"bad\"\x7d",
   fun _ => "",
   fun _ => "\x7b\"is_valid\": false, \"suggested_fix\": \"S3\"\x7d"⟩

/-- Non-matching preview with no suggested query, forcing the
regeneration branch; the validator accepts the regenerated SQL. -/
def regenEnv : Env :=
  ⟨fun _ => "\x7b\"matches_user_intent\": false, \"explanation\": \"bad\"\x7d",
   fun _ => "G1",
   fun _ => "\x7b\"is_valid\": true\x7d"⟩

def convPreview : Json := Json.obj [("matches_user_intent", Json.bool true)]

def convOutcome : Outcome :=
  ⟨Json.str "SELECT 1", convPreview, 1, true,
   [⟨1, Json.str "SELECT 1", convPreview⟩]⟩

def exhaustPreview : Json := previewFallback (Json.str "SELECT 1")

def exhaustOutcome : Outcome :=
  ⟨Json.str "SELECT 1", exhaustPreview, 3, false,
   [⟨1, Json.str "SELECT 1", exhaustPreview⟩,
    ⟨2, Json.str "SELECT 1", exhaustPreview⟩,
    ⟨3, Json.str "SELECT 1", exhaustPreview⟩,
    ⟨3, Json.str "SELECT 1", exhaustPreview⟩]⟩

def suggestPreview : Json :=
  Json.obj [("matches_user_intent", Json.bool false),
            ("suggested_improved_query", Json.str "S2"),
            ("explanation", Json.str "bad")]

def regenPreview : Json :=
  Json.obj [("matches_user_intent", Json.bool false),
            ("explanation", Json.str "bad")]

def cex9reply : String := "\x7b\"is_valid\": false, \"suggested_fix\": \"\"\x7d"

/-- Non-matching preview whose suggested query is present but empty, so
the loop falls through to the regeneration branch. -/
def emptySuggestEnv : Env :=
  ⟨fun _ =>
      "\x7b\"matches_user_intent\": false, \"suggested_improved_query\": \"\", \"explanation\": \"bad\"\x7d",
   fun _ => "G1",
   fun _ => "\x7b\"is_valid\": true\x7d"⟩

def emptySuggestPreview : Json :=
  Json.obj [("matches_user_intent", Json.bool false),
            ("suggested_improved_query", Json.str ""),
            ("explanation", Json.str "bad")]

/-! ## Helper lemmas -/

theorem countPreview_append (a b : List Event) :
    countPreview (a ++ b) = countPreview a + countPreview b := by
  simp [countPreview, List.countP_append]

theorem countGen_append (a b : List Event) :
    countGen (a ++ b) = countGen a + countGen b := by
  simp [countGen, List.countP_append]

theorem countVal_append (a b : List Event) :
    countVal (a ++ b) = countVal a + countVal b := by
  simp [countVal, List.countP_append]

theorem countPreview_previewCall (s : Json) :
    countPreview [Event.previewCall s] = 1 := rfl

theorem countPreview_genCall (s : String) : countPreview [Event.genCall s] = 0 := rfl

theorem countPreview_valCall (s : Json) : countPreview [Event.valCall s] = 0 := rfl

theorem countPreview_nil : countPreview [] = 0 := rfl

theorem countPreview_cons (e : Event) (tr : List Event) :
    countPreview (e :: tr) = countPreview tr + (if isPreviewCall e then 1 else 0) := by
  simp [countPreview, List.countP_cons]

theorem countGen_previewCall (s : Json) : countGen [Event.previewCall s] = 0 := rfl

theorem countGen_genCall (p : String) : countGen [Event.genCall p] = 1 := rfl

theorem countVal_previewCall (s : Json) : countVal [Event.previewCall s] = 0 := rfl

theorem countVal_genCall (p : String) : countVal [Event.genCall p] = 0 := rfl

theorem countVal_valCall (s : Json) : countVal [Event.valCall s] = 1 := rfl

theorem getItem_of_objGet? (j : Json) (k : String) (v : Json)
    (h : objGet? j k = some v) : getItem j k = Except.ok v := by
  cases j with
  | obj kvs => simp only [getItem, h]
  | null => simp [objGet?] at h
  | bool b => simp [objGet?] at h
  | num n => simp [objGet?] at h
  | str s => simp [objGet?] at h
  | arr xs => simp [objGet?] at h

theorem chooseCandidate_trace (env : Env) (s q : String) (sql p : Json)
    (tr1 : List Event) :
    ∃ ext, (chooseCandidate env s q sql p tr1).1 = tr1 ++ ext ∧
      countPreview ext = 0 ∧ countVal ext = 0 := by
  simp only [chooseCandidate]
  rcases h : objGet? p "suggested_improved_query" with _ | v
  · rcases he : getItem p "explanation" with e | ex
    · exact ⟨[], by simp [he], rfl, rfl⟩
    · exact ⟨[Event.genCall (genLoopPrompt s q sql (feedbackText ex))],
        by simp [he], rfl, rfl⟩
  · cases hv : pyTruthy v
    · rcases he : getItem p "explanation" with e | ex
      · exact ⟨[], by simp [he, hv], rfl, rfl⟩
      · exact ⟨[Event.genCall (genLoopPrompt s q sql (feedbackText ex))],
          by simp [he, hv], rfl, rfl⟩
    · exact ⟨[], by simp [hv], rfl, rfl⟩

theorem refineAux_trace (env : Env) (s q : String) :
    ∀ (n i : Nat) (sql : Json) (hist : List IterRec) (tr : List Event),
    ∃ rest, (refineAux env s q n i sql hist tr).1 = tr ++ Event.previewCall sql :: rest := by
  intro n
  induction n with
  | zero => intro i sql hist tr; exact ⟨[], rfl⟩
  | succ n ih =>
    intro i sql hist tr
    rw [refineAux]
    obtain ⟨ext, hext, -, -⟩ := chooseCandidate_trace env s q sql
      (preview_results (env.previewReply (countPreview tr)) sql)
      (tr ++ [Event.previewCall sql])
    split
    · exact ⟨[], rfl⟩
    · split
      · exact ⟨[], rfl⟩
      · split
        · next tr2 e heq =>
            rw [heq] at hext
            exact ⟨ext, by simpa using hext⟩
        · next tr2 cand heq =>
            rw [heq] at hext
            simp only at hext
            dsimp only
            split
            · exact ⟨ext ++ [Event.valCall cand], by simp [hext]⟩
            · split
              · obtain ⟨rest2, hrest2⟩ := ih (i + 1) cand
                  (hist ++ [⟨i + 1, sql, preview_results (env.previewReply (countPreview tr)) sql⟩])
                  (tr2 ++ [Event.valCall cand])
                exact ⟨ext ++ Event.valCall cand :: Event.previewCall cand :: rest2,
                  by rw [hrest2, hext]; simp⟩
              · split
                · exact ⟨ext ++ [Event.valCall cand], by simp [hext]⟩
                · next fix hfix =>
                    obtain ⟨rest2, hrest2⟩ := ih (i + 1) fix
                      (hist ++ [⟨i + 1, sql, preview_results (env.previewReply (countPreview tr)) sql⟩])
                      (tr2 ++ [Event.valCall cand])
                    exact ⟨ext ++ Event.valCall cand :: Event.previewCall fix :: rest2,
                      by rw [hrest2, hext]; simp⟩

theorem refineAux_countPreview (env : Env) (s q : String) :
    ∀ (n i : Nat) (sql : Json) (hist : List IterRec) (tr : List Event),
    countPreview (refineAux env s q n i sql hist tr).1 ≤ countPreview tr + (n + 1) ∧
    (countPreview (refineAux env s q n i sql hist tr).1 = countPreview tr + (n + 1) ↔
      ∃ o, (refineAux env s q n i sql hist tr).2 = Except.ok o ∧ o.final = false) := by
  intro n
  induction n with
  | zero =>
    intro i sql hist tr
    have hcnt : countPreview (refineAux env s q 0 i sql hist tr).1
        = countPreview tr + 1 := by
      simp [refineAux, countPreview_append, countPreview_previewCall]
    refine ⟨le_of_eq hcnt, ?_⟩
    rw [hcnt]
    exact iff_of_true rfl ⟨_, rfl, rfl⟩
  | succ n ih =>
    intro i sql hist tr
    rw [refineAux]
    obtain ⟨ext, hext, hextp, hextv⟩ := chooseCandidate_trace env s q sql
      (preview_results (env.previewReply (countPreview tr)) sql)
      (tr ++ [Event.previewCall sql])
    split
    · constructor
      · simp only [countPreview_append, countPreview_previewCall]; omega
      · constructor
        · intro h; simp only [countPreview_append, countPreview_previewCall] at h; omega
        · rintro ⟨o, ho, -⟩; exact absurd ho (by simp)
    · split
      · constructor
        · simp only [countPreview_append, countPreview_previewCall]; omega
        · constructor
          · intro h; simp only [countPreview_append, countPreview_previewCall] at h; omega
          · rintro ⟨o, ho, hf⟩
            cases Except.ok.inj ho
            simp at hf
      · split
        · next tr2 e heq =>
            rw [heq] at hext
            simp only at hext
            constructor
            · simp only [hext, countPreview_append, countPreview_previewCall]; omega
            · constructor
              · intro h
                simp only [hext, countPreview_append, countPreview_previewCall, hextp] at h
                omega
              · rintro ⟨o, ho, -⟩; exact absurd ho (by simp)
        · next tr2 cand heq =>
            rw [heq] at hext
            simp only at hext
            dsimp only
            have hc3 : countPreview (tr2 ++ [Event.valCall cand])
                = countPreview tr + 1 := by
              simp [hext, countPreview_append, countPreview_cons, countPreview_nil,
                countPreview_previewCall, countPreview_valCall, isPreviewCall, hextp]
            split
            · constructor
              · simp only [hc3]; omega
              · constructor
                · intro h; rw [hc3] at h; omega
                · rintro ⟨o, ho, -⟩; exact absurd ho (by simp)
            · split
              · have := ih (i + 1) cand
                  (hist ++ [⟨i + 1, sql, preview_results (env.previewReply (countPreview tr)) sql⟩])
                  (tr2 ++ [Event.valCall cand])
                rw [hc3] at this
                have harith : countPreview tr + 1 + (n + 1) = countPreview tr + (n + 1 + 1) := by
                  omega
                rw [harith] at this
                exact this
              · split
                · constructor
                  · simp only [hc3]; omega
                  · constructor
                    · intro h; rw [hc3] at h; omega
                    · rintro ⟨o, ho, -⟩; exact absurd ho (by simp)
                · next fix hfix =>
                    have := ih (i + 1) fix
                      (hist ++ [⟨i + 1, sql, preview_results (env.previewReply (countPreview tr)) sql⟩])
                      (tr2 ++ [Event.valCall cand])
                    rw [hc3] at this
                    have harith : countPreview tr + 1 + (n + 1) = countPreview tr + (n + 1 + 1) := by
                      omega
                    rw [harith] at this
                    exact this

theorem hist_fields_append (hist : List IterRec) (i : Nat) (r : IterRec)
    (hlen : hist.length = i)
    (hfld : ∀ idx, idx < i → (hist.getD idx dummyRec).iteration = idx + 1)
    (hr : r.iteration = i + 1) :
    ∀ idx, idx < i + 1 → ((hist ++ [r]).getD idx dummyRec).iteration = idx + 1 := by
  intro idx hidx
  rcases Nat.lt_or_ge idx i with h | h
  · rw [List.getD_append _ _ _ _ (by rw [hlen]; exact h)]
    exact hfld idx h
  · have hii : idx = i := by omega
    subst hii
    rw [List.getD_append_right _ _ _ _ (le_of_eq hlen)]
    simp [hlen, hr]

theorem refineAux_outcome (env : Env) (s q : String) :
    ∀ (n i : Nat) (sql : Json) (hist : List IterRec) (tr : List Event),
    hist.length = i →
    (∀ idx, idx < i → (hist.getD idx dummyRec).iteration = idx + 1) →
    i + n = max_iterations →
    countPreview tr = i →
    ∀ o, (refineAux env s q n i sql hist tr).2 = Except.ok o →
      o.iterations ≤ max_iterations ∧
      (o.final = true →
        1 ≤ o.iterations ∧
        o.history.length = o.iterations ∧
        ∀ idx, idx < o.history.length → (o.history.getD idx dummyRec).iteration = idx + 1) ∧
      (o.final = false →
        o.iterations = max_iterations ∧
        o.history.length = max_iterations + 1 ∧
        (∀ idx, idx < max_iterations → (o.history.getD idx dummyRec).iteration = idx + 1) ∧
        (o.history.getD max_iterations dummyRec).iteration = max_iterations ∧
        o.history.getLast? = some ⟨max_iterations, o.sql, o.results⟩ ∧
        o.results = preview_results (env.previewReply max_iterations) o.sql ∧
        (refineAux env s q n i sql hist tr).1.getLast? = some (Event.previewCall o.sql)) := by
  have hmi : max_iterations = 3 := rfl
  intro n
  induction n with
  | zero =>
    intro i sql hist tr hlen hfld hi htr o ho
    have hi3 : i = max_iterations := by omega
    subst hi3
    rw [refineAux] at ho ⊢
    dsimp only at ho ⊢
    cases Except.ok.inj ho
    refine ⟨le_refl _, ?_, ?_⟩
    · intro h; exact absurd h (by simp)
    · intro _
      refine ⟨rfl, by simp [hlen], ?_, ?_, ?_, ?_, ?_⟩
      · intro idx hidx
        rw [List.getD_append _ _ _ _ (by rw [hlen]; exact hidx)]
        exact hfld idx hidx
      · rw [List.getD_append_right _ _ _ _ (le_of_eq hlen)]
        simp [hlen]
      · simp
      · simp [htr]
      · simp
  | succ n ih =>
    intro i sql hist tr hlen hfld hi htr o ho
    rw [refineAux] at ho ⊢
    obtain ⟨ext, hext, hextp, hextv⟩ := chooseCandidate_trace env s q sql
      (preview_results (env.previewReply (countPreview tr)) sql)
      (tr ++ [Event.previewCall sql])
    revert ho
    split
    · intro ho; exact absurd ho (by simp)
    · split
      · intro ho
        cases Except.ok.inj ho
        refine ⟨by dsimp only; omega, ?_, ?_⟩
        · intro _
          refine ⟨by dsimp only; omega, by simp [hlen], ?_⟩
          intro idx hidx
          simp only [List.length_append, hlen, List.length_singleton] at hidx
          dsimp only at hidx ⊢
          exact hist_fields_append hist i _ hlen hfld rfl idx hidx
        · intro h; exact absurd h (by simp)
      · split
        · intro ho; exact absurd ho (by simp)
        · next tr2 cand heq =>
            rw [heq] at hext
            simp only at hext
            dsimp only
            have hc3 : countPreview (tr2 ++ [Event.valCall cand]) = i + 1 := by
              simp [hext, countPreview_append, countPreview_cons, countPreview_nil,
                countPreview_previewCall, countPreview_valCall, isPreviewCall, hextp, htr]
            split
            · intro ho; exact absurd ho (by simp)
            · split
              · intro ho
                exact ih (i + 1) cand
                  (hist ++ [⟨i + 1, sql, preview_results (env.previewReply (countPreview tr)) sql⟩])
                  (tr2 ++ [Event.valCall cand])
                  (by simp [hlen])
                  (hist_fields_append hist i _ hlen hfld rfl)
                  (by omega) hc3 o ho
              · split
                · intro ho; exact absurd ho (by simp)
                · next fix hfix =>
                    intro ho
                    exact ih (i + 1) fix
                      (hist ++ [⟨i + 1, sql, preview_results (env.previewReply (countPreview tr)) sql⟩])
                      (tr2 ++ [Event.valCall cand])
                      (by simp [hlen])
                      (hist_fields_append hist i _ hlen hfld rfl)
                      (by omega) hc3 o ho

theorem refineAux_round_validates (env : Env) (s q : String) (n i : Nat)
    (sql : Json) (hist : List IterRec) (tr tr2 : List Event) (p m cand : Json)
    (hp : preview_results (env.previewReply (countPreview tr)) sql = p)
    (hm : getItem p "matches_user_intent" = Except.ok m)
    (hmt : pyTruthy m = false)
    (hcc : chooseCandidate env s q sql p (tr ++ [Event.previewCall sql])
      = (tr2, Except.ok cand)) :
    ∃ rest, (refineAux env s q (n + 1) i sql hist tr).1
      = tr2 ++ Event.valCall cand :: rest := by
  rw [refineAux, hp, hm]
  simp only [hmt, Bool.false_eq_true, if_false, hcc]
  split
  · exact ⟨[], rfl⟩
  · split
    · obtain ⟨rest2, hr⟩ := refineAux_trace env s q n (i + 1) cand
        (hist ++ [⟨i + 1, sql, p⟩]) (tr2 ++ [Event.valCall cand])
      exact ⟨Event.previewCall cand :: rest2, by rw [hr]; simp⟩
    · split
      · exact ⟨[], rfl⟩
      · next fix hfix =>
          obtain ⟨rest2, hr⟩ := refineAux_trace env s q n (i + 1) fix
            (hist ++ [⟨i + 1, sql, p⟩]) (tr2 ++ [Event.valCall cand])
          exact ⟨Event.previewCall fix :: rest2, by rw [hr]; simp⟩

theorem refineAux_round_fix (env : Env) (s q : String) (n i : Nat)
    (sql : Json) (hist : List IterRec) (tr tr2 : List Event) (p m cand iv fix : Json)
    (hp : preview_results (env.previewReply (countPreview tr)) sql = p)
    (hm : getItem p "matches_user_intent" = Except.ok m)
    (hmt : pyTruthy m = false)
    (hcc : chooseCandidate env s q sql p (tr ++ [Event.previewCall sql])
      = (tr2, Except.ok cand))
    (hiv : getItem (validate_sql (env.valReply (countVal tr2)) cand) "is_valid"
      = Except.ok iv)
    (hivt : pyTruthy iv = false)
    (hfx : getItem (validate_sql (env.valReply (countVal tr2)) cand) "suggested_fix"
      = Except.ok fix) :
    ∃ rest, (refineAux env s q (n + 1) i sql hist tr).1
      = tr2 ++ Event.valCall cand :: Event.previewCall fix :: rest := by
  rw [refineAux, hp, hm]
  simp only [hmt, Bool.false_eq_true, if_false, hcc]
  rw [hiv]
  simp only [hivt, Bool.false_eq_true, if_false, hfx]
  obtain ⟨rest2, hr⟩ := refineAux_trace env s q n (i + 1) fix
    (hist ++ [⟨i + 1, sql, p⟩]) (tr2 ++ [Event.valCall cand])
  exact ⟨rest2, by rw [hr]; simp⟩

theorem lastIdx_none_spanNone (cs : List Char)
    (h : lastIdx '\x7d' cs = none) : jsonSpanList cs = none := by
  induction cs with
  | nil => rfl
  | cons a rest ih =>
    rw [lastIdx] at h
    rcases hr : lastIdx '\x7d' rest with _ | j
    · rw [hr] at h
      rw [jsonSpanList]
      by_cases ha : a = '\x7b'
      · rw [if_pos ha, hr]
        exact ih hr
      · rw [if_neg ha]
        exact ih hr
    · rw [hr] at h
      exact absurd h (by simp)

theorem jsonSpanList_eq_specSpanList (cs : List Char) :
    jsonSpanList cs = specSpanList cs := by
  induction cs with
  | nil => rfl
  | cons a rest ih =>
    by_cases ha : a = '\x7b'
    · subst ha
      rw [jsonSpanList, if_pos rfl]
      rcases hr : lastIdx '\x7d' rest with _ | j
      · dsimp only
        rw [lastIdx_none_spanNone rest hr]
        unfold specSpanList
        rw [show firstIdx '\x7b' ('\x7b' :: rest) = some 0 from by
          rw [firstIdx, if_pos rfl]]
        rw [show lastIdx '\x7d' ('\x7b' :: rest) = none from by
          rw [lastIdx, hr]; simp]
      · dsimp only
        unfold specSpanList
        rw [show firstIdx '\x7b' ('\x7b' :: rest) = some 0 from by
          rw [firstIdx, if_pos rfl]]
        rw [show lastIdx '\x7d' ('\x7b' :: rest) = some (j + 1) from by
          rw [lastIdx, hr]]
        dsimp only
        rw [if_pos (Nat.succ_pos j)]
        rw [List.take_succ_cons, List.drop_zero]
    · rw [jsonSpanList, if_neg ha, ih]
      unfold specSpanList
      rcases hf : firstIdx '\x7b' rest with _ | i
      · rw [show firstIdx '\x7b' (a :: rest) = none from by
          rw [firstIdx, if_neg ha, hf]]
      · rw [show firstIdx '\x7b' (a :: rest) = some (i + 1) from by
          rw [firstIdx, if_neg ha, hf]]
        rcases hl : lastIdx '\x7d' rest with _ | j
        · by_cases hac : a = '\x7d'
          · rw [show lastIdx '\x7d' (a :: rest) = some 0 from by
              rw [lastIdx, hl, if_pos hac]]
            dsimp only
            rw [if_neg (Nat.not_lt_zero (i + 1))]
          · rw [show lastIdx '\x7d' (a :: rest) = none from by
              rw [lastIdx, hl, if_neg hac]]
        · rw [show lastIdx '\x7d' (a :: rest) = some (j + 1) from by
            rw [lastIdx, hl]]
          dsimp only
          by_cases hij : i < j
          · rw [if_pos hij, if_pos (Nat.succ_lt_succ hij)]
            rw [List.take_succ_cons, List.drop_succ_cons]
          · rw [if_neg hij, if_neg (fun h => hij (Nat.lt_of_succ_lt_succ h))]

theorem jsonSpan_eq_specSpan (s : String) : jsonSpan s = specSpan s := by
  unfold jsonSpan specSpan
  rw [jsonSpanList_eq_specSpanList]

/-! ## The claims -/

/-- Claim C1: the loop performs at most max_iterations preview calls in
its body plus exactly one extra call iff it exhausts the budget without
a matching prediction, and the iterations field never exceeds
max_iterations. -/
theorem claim1_loop_termination (env : Env) (s q init : String) :
    countPreview (refine_sql_until_correct env s q init).1 ≤ max_iterations + 1 ∧
    (countPreview (refine_sql_until_correct env s q init).1 = max_iterations + 1 ↔
      ∃ o, (refine_sql_until_correct env s q init).2 = Except.ok o ∧ o.final = false) ∧
    (∀ o, (refine_sql_until_correct env s q init).2 = Except.ok o →
      o.iterations ≤ max_iterations) := by
  have hc := refineAux_countPreview env s q max_iterations 0 (Json.str init) [] []
  rw [countPreview_nil, Nat.zero_add] at hc
  refine ⟨hc.1, hc.2, ?_⟩
  intro o ho
  exact (refineAux_outcome env s q max_iterations 0 (Json.str init) [] [] rfl
    (fun idx h => absurd h (Nat.not_lt_zero idx)) rfl rfl o ho).1

theorem claim1_witness :
    countPreview (refine_sql_until_correct exhaustEnv "s" "q" "SELECT 1").1
      ≤ max_iterations + 1 :=
  (claim1_loop_termination exhaustEnv "s" "q" "SELECT 1").1

/-- Claim C2 counterexample: on budget exhaustion the history has
max_iterations + 1 = 4 records, not max_iterations, and its fourth
record repeats iteration = 3 instead of carrying 4. -/
theorem claim2_counterexample :
    (refine_sql_until_correct exhaustEnv "s" "q" "SELECT 1").2.map
        (fun o => (o.final, o.history.length, (o.history.getD 3 dummyRec).iteration))
      = Except.ok (false, 4, 3) ∧
    (4 : Nat) ≠ max_iterations ∧ (3 : Nat) ≠ 3 + 1 :=
  ⟨rfl, by decide, by decide⟩

/-- Claim C2 (amended): on convergence the history length equals the
iterations count and record idx carries iteration idx+1; on exhaustion
the history holds max_iterations + 1 records, record idx carries
iteration idx+1 for idx below max_iterations, and the final record
repeats iteration = max_iterations. -/
theorem claim2_history_completeness (env : Env) (s q init : String) :
    ∀ o, (refine_sql_until_correct env s q init).2 = Except.ok o →
      (o.final = true →
        o.history.length = o.iterations ∧
        ∀ idx, idx < o.history.length →
          (o.history.getD idx dummyRec).iteration = idx + 1) ∧
      (o.final = false →
        o.history.length = max_iterations + 1 ∧
        (∀ idx, idx < max_iterations →
          (o.history.getD idx dummyRec).iteration = idx + 1) ∧
        (o.history.getD max_iterations dummyRec).iteration = max_iterations) := by
  intro o ho
  have h := refineAux_outcome env s q max_iterations 0 (Json.str init) [] [] rfl
    (fun idx hh => absurd hh (Nat.not_lt_zero idx)) rfl rfl o ho
  exact ⟨fun hf => ⟨(h.2.1 hf).2.1, (h.2.1 hf).2.2⟩,
         fun hf => ⟨(h.2.2 hf).2.1, (h.2.2 hf).2.2.1, (h.2.2 hf).2.2.2.1⟩⟩

theorem claim2_witness :
    (refine_sql_until_correct convEnv "s" "q" "SELECT 1").2 = Except.ok convOutcome ∧
    convOutcome.history.length = convOutcome.iterations :=
  ⟨rfl,
   ((claim2_history_completeness convEnv "s" "q" "SELECT 1" convOutcome rfl).1 rfl).1⟩

/-- Claim C3: when the first prediction matches user intent the loop
returns immediately with iterations = 1, final = true, the initial SQL
unchanged, and no generator or validator call. -/
theorem claim3_early_exit (env : Env) (s q init : String) (m : Json)
    (hm : getItem (preview_results (env.previewReply 0) (Json.str init))
        "matches_user_intent" = Except.ok m)
    (ht : pyTruthy m = true) :
    refine_sql_until_correct env s q init =
      ([Event.previewCall (Json.str init)],
       Except.ok ⟨Json.str init,
         preview_results (env.previewReply 0) (Json.str init), 1, true,
         [⟨1, Json.str init, preview_results (env.previewReply 0) (Json.str init)⟩]⟩) ∧
    countGen (refine_sql_until_correct env s q init).1 = 0 ∧
    countVal (refine_sql_until_correct env s q init).1 = 0 := by
  have hA : refine_sql_until_correct env s q init =
      ([Event.previewCall (Json.str init)],
       Except.ok ⟨Json.str init,
         preview_results (env.previewReply 0) (Json.str init), 1, true,
         [⟨1, Json.str init, preview_results (env.previewReply 0) (Json.str init)⟩]⟩) := by
    show refineAux env s q (2 + 1) 0 (Json.str init) [] [] = _
    rw [refineAux]
    rw [show countPreview ([] : List Event) = 0 from rfl]
    rw [hm]
    simp only [ht, if_true]
    rfl
  exact ⟨hA, by rw [hA]; rfl, by rw [hA]; rfl⟩

theorem claim3_witness :
    refine_sql_until_correct convEnv "s" "q" "SELECT 1" =
      ([Event.previewCall (Json.str "SELECT 1")],
       Except.ok ⟨Json.str "SELECT 1", convPreview, 1, true,
         [⟨1, Json.str "SELECT 1", convPreview⟩]⟩) :=
  (claim3_early_exit convEnv "s" "q" "SELECT 1" (Json.bool true) rfl rfl).1

/-- Claim C4: an exhausted run performed one extra preview call on the
last candidate, its outcome carries iterations = max_iterations and
final = false, the fourth prediction is the fresh preview of the final
sql, and the history ends with the record of that prediction under
iteration = max_iterations. -/
theorem claim4_exhaustion (env : Env) (s q init : String) (o : Outcome)
    (ho : (refine_sql_until_correct env s q init).2 = Except.ok o)
    (hf : o.final = false) :
    o.iterations = max_iterations ∧
    countPreview (refine_sql_until_correct env s q init).1 = max_iterations + 1 ∧
    (refine_sql_until_correct env s q init).1.getLast?
      = some (Event.previewCall o.sql) ∧
    o.results = preview_results (env.previewReply max_iterations) o.sql ∧
    o.history.getLast? = some ⟨max_iterations, o.sql, o.results⟩ ∧
    o.history.length = max_iterations + 1 := by
  have h := refineAux_outcome env s q max_iterations 0 (Json.str init) [] [] rfl
    (fun idx hh => absurd hh (Nat.not_lt_zero idx)) rfl rfl o ho
  have hc := (refineAux_countPreview env s q max_iterations 0 (Json.str init) [] []).2
  rw [countPreview_nil, Nat.zero_add] at hc
  obtain ⟨hit, hlen, -, -, hlast, hres, htrl⟩ := h.2.2 hf
  exact ⟨hit, hc.mpr ⟨o, ho, hf⟩, htrl, hres, hlast, hlen⟩

theorem claim4_witness :
    (refine_sql_until_correct exhaustEnv "s" "q" "SELECT 1").2
      = Except.ok exhaustOutcome ∧
    exhaustOutcome.iterations = max_iterations ∧
    countPreview (refine_sql_until_correct exhaustEnv "s" "q" "SELECT 1").1
      = max_iterations + 1 :=
  ⟨rfl,
   (claim4_exhaustion exhaustEnv "s" "q" "SELECT 1" exhaustOutcome rfl rfl).1,
   (claim4_exhaustion exhaustEnv "s" "q" "SELECT 1" exhaustOutcome rfl rfl).2.1⟩

/-- Claim C5: in a non-converged round, a present and non-empty
suggested_improved_query becomes the next candidate handed to the
validator; otherwise, with the field absent or present but empty or
falsy, the candidate is the reply of a fresh generator call whose
prompt embeds the feedback text built from the explanation field. -/
theorem claim5_candidate_choice (env : Env) (s q : String) (n i : Nat)
    (sql : Json) (hist : List IterRec) (tr : List Event) (p m : Json)
    (hp : preview_results (env.previewReply (countPreview tr)) sql = p)
    (hm : getItem p "matches_user_intent" = Except.ok m)
    (hmt : pyTruthy m = false) :
    (∀ ssql : String,
      objGet? p "suggested_improved_query" = some (Json.str ssql) → ssql ≠ "" →
      ∃ rest, (refineAux env s q (n + 1) i sql hist tr).1
        = tr ++ [Event.previewCall sql, Event.valCall (Json.str ssql)] ++ rest) ∧
    ((∀ v, objGet? p "suggested_improved_query" = some v → pyTruthy v = false) →
      ∀ ex, getItem p "explanation" = Except.ok ex →
      ∃ rest, (refineAux env s q (n + 1) i sql hist tr).1
        = tr ++ [Event.previewCall sql,
                 Event.genCall (genLoopPrompt s q sql (feedbackText ex)),
                 Event.valCall (Json.str (env.genReply (countGen tr)))] ++ rest) := by
  constructor
  · intro ssql hsug hne
    have hcc : chooseCandidate env s q sql p (tr ++ [Event.previewCall sql])
        = (tr ++ [Event.previewCall sql], Except.ok (Json.str ssql)) := by
      simp [chooseCandidate, hsug, pyTruthy, hne]
    obtain ⟨rest, hr⟩ := refineAux_round_validates env s q n i sql hist tr
      (tr ++ [Event.previewCall sql]) p m (Json.str ssql) hp hm hmt hcc
    exact ⟨rest, by rw [hr]; simp⟩
  · intro hno ex hex
    have hcg : countGen (tr ++ [Event.previewCall sql]) = countGen tr := by
      simp [countGen_append, countGen_previewCall]
    have hcc : chooseCandidate env s q sql p (tr ++ [Event.previewCall sql])
        = (tr ++ [Event.previewCall sql]
             ++ [Event.genCall (genLoopPrompt s q sql (feedbackText ex))],
           Except.ok (Json.str (env.genReply (countGen tr)))) := by
      rcases hsome : objGet? p "suggested_improved_query" with _ | v
      · simp [chooseCandidate, hsome, hex, hcg]
      · simp [chooseCandidate, hsome, hno v hsome, hex, hcg]
    obtain ⟨rest, hr⟩ := refineAux_round_validates env s q n i sql hist tr
      (tr ++ [Event.previewCall sql]
        ++ [Event.genCall (genLoopPrompt s q sql (feedbackText ex))])
      p m (Json.str (env.genReply (countGen tr))) hp hm hmt hcc
    exact ⟨rest, by rw [hr]; simp⟩

theorem claim5_witness :
    (∃ rest, (refineAux suggestEnv "s" "q" (2 + 1) 0 (Json.str "SELECT 1") [] []).1
      = [] ++ [Event.previewCall (Json.str "SELECT 1"),
               Event.valCall (Json.str "S2")] ++ rest) ∧
    (∃ rest, (refineAux regenEnv "s" "q" (2 + 1) 0 (Json.str "SELECT 1") [] []).1
      = [] ++ [Event.previewCall (Json.str "SELECT 1"),
               Event.genCall (genLoopPrompt "s" "q" (Json.str "SELECT 1")
                 (feedbackText (Json.str "bad"))),
               Event.valCall (Json.str (regenEnv.genReply (countGen [])))] ++ rest) ∧
    (∃ rest, (refineAux emptySuggestEnv "s" "q" (2 + 1) 0 (Json.str "SELECT 1") [] []).1
      = [] ++ [Event.previewCall (Json.str "SELECT 1"),
               Event.genCall (genLoopPrompt "s" "q" (Json.str "SELECT 1")
                 (feedbackText (Json.str "bad"))),
               Event.valCall (Json.str (emptySuggestEnv.genReply (countGen [])))] ++ rest) :=
  ⟨(claim5_candidate_choice suggestEnv "s" "q" 2 0 (Json.str "SELECT 1") [] []
      suggestPreview (Json.bool false) rfl rfl rfl).1 "S2" rfl (by decide),
   (claim5_candidate_choice regenEnv "s" "q" 2 0 (Json.str "SELECT 1") [] []
      regenPreview (Json.bool false) rfl rfl rfl).2
     (fun v h => by
       rw [show objGet? regenPreview "suggested_improved_query" = none from rfl] at h
       exact Option.noConfusion h)
     (Json.str "bad") rfl,
   (claim5_candidate_choice emptySuggestEnv "s" "q" 2 0 (Json.str "SELECT 1") [] []
      emptySuggestPreview (Json.bool false) rfl rfl rfl).2
     (fun v h => by
       rw [show objGet? emptySuggestPreview "suggested_improved_query"
           = some (Json.str "") from rfl] at h
       cases Option.some.inj h
       rfl)
     (Json.str "bad") rfl⟩

/-- Claim C6: in every non-converged round the chosen candidate — a
truthy suggested_improved_query of any shape, or the regenerated SQL
when that field is absent or falsy — is handed to the validator
regardless of the verdict, and when the verdict has is_valid false the
loop overwrites the candidate with the suggested_fix, so the next
preview call operates on that fix. -/
theorem claim6_validation (env : Env) (s q : String) (n i : Nat)
    (sql : Json) (hist : List IterRec) (tr : List Event) (p m : Json)
    (hp : preview_results (env.previewReply (countPreview tr)) sql = p)
    (hm : getItem p "matches_user_intent" = Except.ok m)
    (hmt : pyTruthy m = false) :
    (∀ v : Json, objGet? p "suggested_improved_query" = some v → pyTruthy v = true →
      (∃ rest, (refineAux env s q (n + 1) i sql hist tr).1
        = tr ++ [Event.previewCall sql, Event.valCall v] ++ rest) ∧
      (∀ iv fix : Json,
        getItem (validate_sql (env.valReply (countVal tr)) v) "is_valid"
          = Except.ok iv →
        pyTruthy iv = false →
        getItem (validate_sql (env.valReply (countVal tr)) v) "suggested_fix"
          = Except.ok fix →
        ∃ rest, (refineAux env s q (n + 1) i sql hist tr).1
          = tr ++ [Event.previewCall sql, Event.valCall v,
                   Event.previewCall fix] ++ rest)) ∧
    ((∀ v, objGet? p "suggested_improved_query" = some v → pyTruthy v = false) →
      ∀ ex, getItem p "explanation" = Except.ok ex →
      (∃ rest, (refineAux env s q (n + 1) i sql hist tr).1
        = tr ++ [Event.previewCall sql,
                 Event.genCall (genLoopPrompt s q sql (feedbackText ex)),
                 Event.valCall (Json.str (env.genReply (countGen tr)))] ++ rest) ∧
      (∀ iv fix : Json,
        getItem (validate_sql (env.valReply (countVal tr))
            (Json.str (env.genReply (countGen tr)))) "is_valid" = Except.ok iv →
        pyTruthy iv = false →
        getItem (validate_sql (env.valReply (countVal tr))
            (Json.str (env.genReply (countGen tr)))) "suggested_fix" = Except.ok fix →
        ∃ rest, (refineAux env s q (n + 1) i sql hist tr).1
          = tr ++ [Event.previewCall sql,
                   Event.genCall (genLoopPrompt s q sql (feedbackText ex)),
                   Event.valCall (Json.str (env.genReply (countGen tr))),
                   Event.previewCall fix] ++ rest)) := by
  constructor
  · intro v hsug hv
    have hcc : chooseCandidate env s q sql p (tr ++ [Event.previewCall sql])
        = (tr ++ [Event.previewCall sql], Except.ok v) := by
      simp [chooseCandidate, hsug, hv]
    have hcv : countVal (tr ++ [Event.previewCall sql]) = countVal tr := by
      simp [countVal_append, countVal_previewCall]
    constructor
    · obtain ⟨rest, hr⟩ := refineAux_round_validates env s q n i sql hist tr
        (tr ++ [Event.previewCall sql]) p m v hp hm hmt hcc
      exact ⟨rest, by rw [hr]; simp⟩
    · intro iv fix hiv hivt hfx
      obtain ⟨rest, hr⟩ := refineAux_round_fix env s q n i sql hist tr
        (tr ++ [Event.previewCall sql]) p m v iv fix hp hm hmt hcc
        (by rw [hcv]; exact hiv) hivt (by rw [hcv]; exact hfx)
      exact ⟨rest, by rw [hr]; simp⟩
  · intro hno ex hex
    have hcg : countGen (tr ++ [Event.previewCall sql]) = countGen tr := by
      simp [countGen_append, countGen_previewCall]
    have hcc : chooseCandidate env s q sql p (tr ++ [Event.previewCall sql])
        = (tr ++ [Event.previewCall sql]
             ++ [Event.genCall (genLoopPrompt s q sql (feedbackText ex))],
           Except.ok (Json.str (env.genReply (countGen tr)))) := by
      rcases hsome : objGet? p "suggested_improved_query" with _ | v
      · simp [chooseCandidate, hsome, hex, hcg]
      · simp [chooseCandidate, hsome, hno v hsome, hex, hcg]
    have hcv : countVal (tr ++ [Event.previewCall sql]
        ++ [Event.genCall (genLoopPrompt s q sql (feedbackText ex))]) = countVal tr := by
      simp only [List.append_assoc, countVal_append]
      rfl
    constructor
    · obtain ⟨rest, hr⟩ := refineAux_round_validates env s q n i sql hist tr
        (tr ++ [Event.previewCall sql]
          ++ [Event.genCall (genLoopPrompt s q sql (feedbackText ex))])
        p m (Json.str (env.genReply (countGen tr))) hp hm hmt hcc
      exact ⟨rest, by rw [hr]; simp⟩
    · intro iv fix hiv hivt hfx
      obtain ⟨rest, hr⟩ := refineAux_round_fix env s q n i sql hist tr
        (tr ++ [Event.previewCall sql]
          ++ [Event.genCall (genLoopPrompt s q sql (feedbackText ex))])
        p m (Json.str (env.genReply (countGen tr))) iv fix hp hm hmt hcc
        (by rw [hcv]; exact hiv) hivt (by rw [hcv]; exact hfx)
      exact ⟨rest, by rw [hr]; simp⟩

theorem claim6_witness :
    (∃ rest, (refineAux suggestEnv "s" "q" (2 + 1) 0 (Json.str "SELECT 1") [] []).1
      = [] ++ [Event.previewCall (Json.str "SELECT 1"),
               Event.valCall (Json.str "S2")] ++ rest) ∧
    (∃ rest, (refineAux suggestEnv "s" "q" (2 + 1) 0 (Json.str "SELECT 1") [] []).1
      = [] ++ [Event.previewCall (Json.str "SELECT 1"),
               Event.valCall (Json.str "S2"),
               Event.previewCall (Json.str "S3")] ++ rest) :=
  ⟨((claim6_validation suggestEnv "s" "q" 2 0 (Json.str "SELECT 1") [] []
      suggestPreview (Json.bool false) rfl rfl rfl).1 (Json.str "S2") rfl rfl).1,
   ((claim6_validation suggestEnv "s" "q" 2 0 (Json.str "SELECT 1") [] []
      suggestPreview (Json.bool false) rfl rfl rfl).1 (Json.str "S2") rfl rfl).2
     (Json.bool false) (Json.str "S3") rfl rfl rfl⟩

/-- Claim C7: when the decode of the extracted reply fails, each stage
returns its total fallback record instead of propagating the failure:
the validator record has is_valid false, the fixed issue list, the input
SQL as suggested_fix and the manual-review explanation; the previewer
record has matches_user_intent false and the input SQL as
suggested_improved_query. -/
theorem claim7_fallback_totality (reply : String) (sql : Json)
    (hfail : jsonParse (extractJson reply) = none) :
    objGet? (validate_sql reply sql) "is_valid" = some (Json.bool false) ∧
    objGet? (validate_sql reply sql) "issues"
      = some (Json.arr [Json.str "Failed to parse validation response"]) ∧
    objGet? (validate_sql reply sql) "suggested_fix" = some sql ∧
    objGet? (validate_sql reply sql) "explanation"
      = some (Json.str "The validator failed to produce a proper response. Please review the SQL manually.") ∧
    validate_sql reply sql = validationFallback sql ∧
    objGet? (preview_results reply sql) "matches_user_intent" = some (Json.bool false) ∧
    objGet? (preview_results reply sql) "suggested_improved_query" = some sql ∧
    preview_results reply sql = previewFallback sql := by
  unfold validate_sql preview_results
  rw [hfail]
  exact ⟨rfl, rfl, rfl, rfl, rfl, rfl, rfl, rfl⟩

theorem claim7_witness :
    validate_sql "not json" (Json.str "SELECT 1")
      = validationFallback (Json.str "SELECT 1") ∧
    preview_results "not json" (Json.str "SELECT 1")
      = previewFallback (Json.str "SELECT 1") :=
  ⟨(claim7_fallback_totality "not json" (Json.str "SELECT 1") rfl).2.2.2.2.1,
   (claim7_fallback_totality "not json" (Json.str "SELECT 1") rfl).2.2.2.2.2.2.2⟩

/-- Claim C8 counterexample: a reply with no brace-delimited span is not
reported as a parse failure — the whole text is decoded instead, here
successfully, and the decoded value is returned in place of the
fallback. -/
theorem claim8_counterexample :
    jsonSpan "42" = none ∧
    validate_sql "42" (Json.str "SELECT 1") = Json.num 42 ∧
    validate_sql "42" (Json.str "SELECT 1")
      ≠ validationFallback (Json.str "SELECT 1") := by
  refine ⟨rfl, rfl, fun h => ?_⟩
  rw [show validate_sql "42" (Json.str "SELECT 1") = Json.num 42 from rfl] at h
  exact Json.noConfusion h

/-- Claim C8 (amended): the extraction selects the span from the first
opening brace to the last closing brace of the whole text; when a span
is found, that span is strictly decoded, otherwise the whole text is
strictly decoded, and the stage reports a parse failure exactly when
that decode fails. -/
theorem claim8_extraction (content : String) (sql : Json) :
    jsonSpan content = specSpan content ∧
    (match specParse content with
     | some j => validate_sql content sql = j
     | none => validate_sql content sql = validationFallback sql) ∧
    (jsonParse (extractJson content) = none →
      validate_sql content sql = validationFallback sql) := by
  refine ⟨jsonSpan_eq_specSpan content, ?_, ?_⟩
  · unfold specParse validate_sql extractJson
    rw [← jsonSpan_eq_specSpan content]
    rcases hs : jsonSpan content with _ | t
    · rcases hp : jsonParse content with _ | j <;> simp [hp]
    · rcases hp : jsonParse t with _ | j <;> simp [hp]
  · intro h
    unfold validate_sql
    rw [h]

theorem claim8_witness :
    validate_sql "42" (Json.str "X") = Json.num 42 ∧
    jsonSpan "x \x7b\"a\": 1\x7d y" = specSpan "x \x7b\"a\": 1\x7d y" ∧
    specSpan "x \x7b\"a\": 1\x7d y" = some "\x7b\"a\": 1\x7d" :=
  ⟨(claim8_extraction "42" (Json.str "X")).2.1,
   (claim8_extraction "x \x7b\"a\": 1\x7d y" (Json.str "X")).1, rfl⟩

/-- Claim C9 counterexample: a well-formed verdict with is_valid false
and an empty suggested_fix is returned unchecked, so the invariant that
suggested_fix is never empty when is_valid is false fails. -/
theorem claim9_counterexample :
    objGet? (validate_sql cex9reply (Json.str "SELECT 1")) "is_valid"
      = some (Json.bool false) ∧
    objGet? (validate_sql cex9reply (Json.str "SELECT 1")) "suggested_fix"
      = some (Json.str "") :=
  ⟨rfl, rfl⟩

/-- Claim C9 (amended): the code does not enforce the invariant on
successfully decoded verdicts; only the parse-failure fallback ties
suggested_fix to the input SQL, so it is non-empty exactly when the
input SQL is. -/
theorem claim9_fallback_fix (reply : String) (sql : String)
    (hfail : jsonParse (extractJson reply) = none) (hne : sql ≠ "") :
    objGet? (validate_sql reply (Json.str sql)) "is_valid"
      = some (Json.bool false) ∧
    objGet? (validate_sql reply (Json.str sql)) "suggested_fix"
      = some (Json.str sql) ∧
    pyTruthy (Json.str sql) = true := by
  unfold validate_sql
  rw [hfail]
  exact ⟨rfl, rfl, by simp [pyTruthy, hne]⟩

theorem claim9_witness :
    objGet? (validate_sql "x" (Json.str "SELECT 1")) "suggested_fix"
      = some (Json.str "SELECT 1") :=
  (claim9_fallback_fix "x" "SELECT 1" rfl (by decide)).2.1

/-- Claim C10: a reply whose brace span decodes to valid JSON that is
not an object with the expected keys is returned unchecked by the stage,
and the key access in refine_sql_until_correct raises an exception that
escapes the loop: a KeyError from the previewer record, a TypeError from
a non-dictionary record, and a KeyError from the validator record. -/
theorem claim10_unchecked_decode :
    preview_results (keyErrEnv.previewReply 0) (Json.str "SELECT 1")
      = Json.obj [("columns", Json.arr [])] ∧
    (refine_sql_until_correct keyErrEnv "s" "q" "SELECT 1").2
      = Except.error (PyErr.keyError "matches_user_intent") ∧
    (refine_sql_until_correct typeErrEnv "s" "q" "SELECT 1").2
      = Except.error PyErr.typeError ∧
    (refine_sql_until_correct valKeyErrEnv "s" "q" "SELECT 1").2
      = Except.error (PyErr.keyError "is_valid") :=
  ⟨rfl, rfl, rfl, rfl⟩

end Txt2Sql
